import Mathlib

/-!
Verification of the NewSpaceScrapper client-side data logic.

The development shallowly embeds the reviewable logic of the dashboard:

* the `LinkData` record (`src/pages/Index.tsx`),
* the filter/search predicate `filteredData` (`src/pages/Index.tsx`, also
  duplicated verbatim in `src/pages/CompanyPage.tsx`),
* the category aggregation `allCategories` and `categoryStats`
  (`src/pages/Index.tsx`),
* the upload validator `validateJsonData` and the upload flow `processFile`
  (`src/components/FileUpload.tsx`),
* the spreadsheet export `exportToExcel` (`src/components/ExportButton.tsx`),
* the category toggle `toggleCategory` (`src/components/CategoryFilter.tsx`).

JavaScript strings are modelled as Lean `String` values; `toLowerCase` is
modelled as per-character lowering, `includes` as contiguous-substring
occurrence, and the default `Array.prototype.sort()` comparison as
lexicographic comparison of the character sequences.  JSON values are an
inductive type and JavaScript truthiness and `typeof` are modelled
explicitly.
-/

namespace NewSpace

/-- One categorized link, the `LinkData` interface of `Index.tsx`:
a `url`, an ordered list of category labels, and an optional summary. -/
structure LinkData where
  url : String
  categories : List String
  summary : Option String := none
  deriving Repr, DecidableEq

/-- JavaScript `String.prototype.toLowerCase()`: every character lowered. -/
def jsToLower (s : String) : String :=
  String.mk (s.data.map Char.toLower)

/-- Does `needle` occur as a contiguous run inside the second list?
Executable counterpart of `List.IsInfix`, mirroring the scan JavaScript
`String.prototype.includes` performs. -/
def containsSeq (needle : List Char) : List Char → Bool
  | [] => needle.isEmpty
  | b :: bs => needle.isPrefixOf (b :: bs) || containsSeq needle bs

/-- JavaScript `s.includes(q)`: `q` is a contiguous substring of `s`. -/
def jsIncludes (s q : String) : Bool :=
  containsSeq q.data s.data

/-- The category predicate of `filteredData` (`Index.tsx` line 159):
`selectedCategories.length === 0 || selectedCategories.some(cat =>
item.categories.includes(cat))`. -/
def matchesCategory (selected : List String) (item : LinkData) : Bool :=
  selected.length == 0 || selected.any (fun cat => item.categories.contains cat)

/-- The text predicate of `filteredData` (`Index.tsx` lines 162-165): the
query is empty, or its lowercasing occurs in the lowercased url, in some
lowercased category label, or in the lowercased summary (a missing or empty
summary is falsy in JavaScript, so that disjunct is skipped). -/
def matchesSearch (query : String) (item : LinkData) : Bool :=
  query == "" ||
  jsIncludes (jsToLower item.url) (jsToLower query) ||
  item.categories.any (fun cat => jsIncludes (jsToLower cat) (jsToLower query)) ||
  (match item.summary with
   | some s => s != "" && jsIncludes (jsToLower s) (jsToLower query)
   | none => false)

/-- `filteredData` (`Index.tsx` lines 157-169): keep the records satisfying
both the category predicate and the text predicate. -/
def filteredData (data : List LinkData) (selected : List String)
    (query : String) : List LinkData :=
  data.filter (fun item => matchesCategory selected item && matchesSearch query item)

/-- Adding one element to a JavaScript `Set`, modelled as an
insertion-ordered duplicate-free list. -/
def setAdd (l : List String) (x : String) : List String :=
  if x ∈ l then l else l ++ [x]

/-- The `Set` built by `allCategories` (`Index.tsx` lines 150-153): every
record's labels inserted in order. -/
def collectCategories (data : List LinkData) : List String :=
  data.foldl (fun acc item => item.categories.foldl setAdd acc) []

/-- Lexicographic comparison of character sequences, the comparison the
default `Array.prototype.sort()` applies to strings. -/
def charsLe : List Char → List Char → Bool
  | [], _ => true
  | _ :: _, [] => false
  | a :: as, b :: bs =>
    if a < b then true
    else if b < a then false
    else charsLe as bs

/-- String comparison by `charsLe` on the underlying characters. -/
def strLe (s t : String) : Bool :=
  charsLe s.data t.data

/-- `allCategories` (`Index.tsx` lines 149-155, recomputed identically in
`ExportButton.tsx` lines 22-28): the distinct labels, sorted.  The sort is
modelled by insertion sort; on the duplicate-free output of the `Set` any
comparison sort returns the same list. -/
def allCategories (data : List LinkData) : List String :=
  (collectCategories data).insertionSort (fun s t => strLe s t = true)

/-- `categoryStats` (`Index.tsx` lines 171-177): the value stored for a
label is `data.filter(item => item.categories.includes(category)).length`. -/
def categoryStats (data : List LinkData) (category : String) : Nat :=
  (data.filter (fun item => item.categories.contains category)).length

/-- Modelled from the claim's words, for comparison with `categoryStats`:
the total number of occurrences of a label across all records' category
sequences, counting a repeated label once per occurrence. -/
def totalOccurrences (data : List LinkData) (category : String) : Nat :=
  (data.flatMap (fun item => item.categories)).count category

/-- `toggleCategory` (`CategoryFilter.tsx` lines 18-24): remove the label
when selected, append it otherwise. -/
def toggleCategory (selected : List String) (category : String) : List String :=
  if selected.contains category then selected.filter (fun c => c != category)
  else selected ++ [category]

/-- The characters `exportToExcel` replaces in a sheet name
(`ExportButton.tsx` line 62): the regex class `[\\\/\?\*\[\]]`. -/
def forbiddenSheetChars : List Char :=
  ['\\', '/', '?', '*', '[', ']']

/-- `cleanCategoryName` (`ExportButton.tsx` line 62):
`category.replace(/[\\\/\?\*\[\]]/g, '_').substring(0, 31)`. -/
def cleanSheetName (category : String) : String :=
  String.mk
    ((category.data.map
      (fun ch => if ch ∈ forbiddenSheetChars then '_' else ch)).take 31)

/-- One data row of a sheet (`ExportButton.tsx` lines 43-47):
`[item.summary || '', item.url, '']`. -/
def sheetRow (item : LinkData) : List String :=
  [item.summary.getD "", item.url, ""]

/-- The header row of every sheet (`ExportButton.tsx` line 42). -/
def sheetHeader : List String :=
  ["Summary", "URL", "Human Analysis"]

/-- The sheet `exportToExcel` builds for one category
(`ExportButton.tsx` lines 34-48): the header row, then one row per record
whose `categories` contains the label, in the order of the record list. -/
def sheetFor (data : List LinkData) (category : String) : List (List String) :=
  sheetHeader ::
    (data.filter (fun item => item.categories.contains category)).map sheetRow

/-- The workbook `exportToExcel` assembles (`ExportButton.tsx` lines
30-64): for each label of `allCategories data`, in order, the cleaned sheet
name paired with the sheet for that label. -/
def exportSheets (data : List LinkData) : List (String × List (List String)) :=
  (allCategories data).map (fun c => (cleanSheetName c, sheetFor data c))

/-- A JSON value, the shape `JSON.parse` can return. -/
inductive Json where
  | null
  | bool (b : Bool)
  | num (n : Int)
  | str (s : String)
  | arr (elems : List Json)
  | obj (fields : List (String × Json))

/-- JavaScript truthiness of a possibly-missing JSON value (`none` stands
for `undefined`). -/
def truthy : Option Json → Bool
  | none => false
  | some .null => false
  | some (.bool b) => b
  | some (.num n) => n != 0
  | some (.str s) => s != ""
  | some (.arr _) => true
  | some (.obj _) => true

/-- `typeof v === 'object'`: true for `null`, arrays and objects. -/
def jsTypeofObject : Json → Bool
  | .null => true
  | .arr _ => true
  | .obj _ => true
  | _ => false

/-- JavaScript property access `item[k]`: a field of an object, `undefined`
otherwise. -/
def getProp : Json → String → Option Json
  | .obj fields, k => (fields.find? (fun f => f.1 == k)).map (fun f => f.2)
  | _, _ => none

/-- The string payload of a JSON value, if it is one; `filterMap` with this
models `categories.filter(cat => typeof cat === 'string')`. -/
def jsonString : Json → Option String
  | .str s => some s
  | _ => none

/-- The body of the `data.map` in `validateJsonData` (`FileUpload.tsx`
lines 23-40) for the element at index `i`: reject non-objects, falsy or
non-string `url`, and missing or non-array `categories`; keep only the
string entries of `categories`.  The returned object has no `summary`
field. -/
def validateElem (i : Nat) (item : Json) : Except String LinkData :=
  if !truthy (some item) || !jsTypeofObject item then
    .error ("Item at index " ++ toString i ++ " must be an object")
  else
    match getProp item "url" with
    | some (.str s) =>
      if s == "" then
        .error ("Item at index " ++ toString i ++ " must have a valid \"url\" field")
      else
        match getProp item "categories" with
        | some (.arr cats) =>
          .ok { url := s, categories := cats.filterMap jsonString, summary := none }
        | _ =>
          .error ("Item at index " ++ toString i ++ " must have a \"categories\" array")
    | _ =>
      .error ("Item at index " ++ toString i ++ " must have a valid \"url\" field")

/-- The `data.map` of `validateJsonData`: left to right, stopping at the
first element whose validation throws. -/
def validateItems : Nat → List Json → Except String (List LinkData)
  | _, [] => .ok []
  | i, item :: rest =>
    match validateElem i item with
    | .error e => .error e
    | .ok r =>
      match validateItems (i + 1) rest with
      | .error e => .error e
      | .ok rs => .ok (r :: rs)

/-- `validateJsonData` (`FileUpload.tsx` lines 18-41): the parsed value
must be an array, and every element must validate. -/
def validateJsonData : Json → Except String (List LinkData)
  | .arr items => validateItems 0 items
  | _ => .error "JSON must be an array of objects"

/-- One upload attempt against the current dashboard state, the effect of
`processFile` (`FileUpload.tsx` lines 43-64) on the loaded dataset: on
success `onUpload` replaces the data, on a validation error the exception
is caught, `onUpload` is never invoked and the dataset is unchanged. -/
def uploadStep (current : List LinkData) (parsed : Json) : List LinkData :=
  match validateJsonData parsed with
  | .ok newData => newData
  | .error _ => current

/-- Is a JSON value a string?  `typeof cat === 'string'`. -/
def isJsonStr : Json → Bool
  | .str _ => true
  | _ => false

/-! ### Claim-side predicates, stated in the specification's words -/

/-- The matching predicate as the specification states it: the selected
list is empty or the record shares at least one label with it, and the
query is empty or its lowercasing is a contiguous substring of the
lowercased url, of some lowercased category label, or of the lowercased
summary when a summary is present. -/
def RecordMatches (selected : List String) (query : String) (r : LinkData) : Prop :=
  (selected = [] ∨ ∃ c ∈ r.categories, c ∈ selected) ∧
  (query = "" ∨
    (jsToLower query).data <:+: (jsToLower r.url).data ∨
    (∃ c ∈ r.categories, (jsToLower query).data <:+: (jsToLower c).data) ∨
    (∃ s, r.summary = some s ∧ (jsToLower query).data <:+: (jsToLower s).data))

/-- An element the upload validator accepts: an object whose `url` field
is a non-empty string and whose `categories` field is an array. -/
def wellFormedElem (j : Json) : Prop :=
  (∃ fields, j = Json.obj fields) ∧
  (∃ s, getProp j "url" = some (Json.str s) ∧ s ≠ "") ∧
  (∃ xs, getProp j "categories" = some (Json.arr xs))

/-! ### Concrete inputs used by witnesses and counterexamples -/

/-- A record whose url contains `"isar"` in lower case. -/
def demoIsar : LinkData :=
  { url := "https://isaraerospace.com/launch", categories := ["Partnership"],
    summary := none }

/-- One record whose category sequence repeats a label. -/
def statsDemo : List LinkData :=
  [{ url := "https://example.com/1", categories := ["A", "A"], summary := none }]

/-- A record tagged with two labels, as in the export-partition example. -/
def demoRec : LinkData :=
  { url := "https://example.com/post", categories := ["Partnership", "Fundraising"],
    summary := some "Joint venture announced" }

/-- The dataset holding just `demoRec`. -/
def exportDemo : List LinkData := [demoRec]

/-- An uploaded element that lacks a `url` field. -/
def badElem : Json :=
  Json.obj [("categories", Json.arr [Json.str "A"])]

/-- An upload whose second element lacks a `url` field. -/
def badUpload : Json :=
  Json.arr
    [Json.obj [("url", Json.str "https://example.com/ok"),
               ("categories", Json.arr [Json.str "A"])],
     badElem]

/-- A previously loaded dataset. -/
def currentDemo : List LinkData :=
  [{ url := "https://old.example/1", categories := ["Old"], summary := none }]

/-- A valid uploaded element that carries a `summary` field. -/
def summaryElem : Json :=
  Json.obj [("url", Json.str "https://example.com/s"),
            ("categories", Json.arr [Json.str "A"]),
            ("summary", Json.str "hello")]

/-- Fields of a valid element whose `categories` mixes strings with
non-strings. -/
def mixedFields : List (String × Json) :=
  [("url", Json.str "https://example.com/a"),
   ("categories", Json.arr [Json.str "A", Json.num 3, Json.str "B", Json.null])]

/-! ### String and substring lemmas -/

theorem containsSeq_iff (needle : List Char) :
    ∀ l : List Char, containsSeq needle l = true ↔ needle <:+: l
  | [] => by
    simp [containsSeq, List.infix_nil, List.isEmpty_iff]
  | b :: bs => by
    simp [containsSeq, List.isPrefixOf_iff_prefix, containsSeq_iff needle bs,
      List.infix_cons_iff]

theorem jsIncludes_iff (s q : String) :
    jsIncludes s q = true ↔ q.data <:+: s.data :=
  containsSeq_iff q.data s.data

theorem data_jsToLower (s : String) :
    (jsToLower s).data = s.data.map Char.toLower := rfl

theorem data_eq_nil_iff (s : String) : s.data = [] ↔ s = "" :=
  ⟨fun h => String.ext h, fun h => h ▸ rfl⟩

theorem jsToLower_eq_empty_iff (s : String) :
    (jsToLower s).data = [] ↔ s = "" := by
  rw [data_jsToLower, List.map_eq_nil_iff, data_eq_nil_iff]

/-! ### The lexicographic comparison agrees with the string order -/

theorem charsLe_iff :
    ∀ l₁ l₂ : List Char, charsLe l₁ l₂ = true ↔ ¬ List.Lex (· < ·) l₂ l₁
  | [], l₂ => by
    simp [charsLe, List.Lex.not_nil_right]
  | a :: as, [] => by
    simp [charsLe]
    exact List.Lex.nil
  | a :: as, b :: bs => by
    rcases lt_trichotomy a b with hab | rfl | hba
    · rw [show charsLe (a :: as) (b :: bs) = true by simp [charsLe, hab]]
      simp only [true_iff]
      intro h
      cases h with
      | cons h2 => exact lt_irrefl _ hab
      | rel hr => exact lt_asymm hab hr
    · rw [show charsLe (a :: as) (a :: bs) = charsLe as bs by
        simp [charsLe, lt_irrefl]]
      rw [charsLe_iff as bs, List.Lex.cons_iff]
    · rw [show charsLe (a :: as) (b :: bs) = false by
        simp [charsLe, asymm hba, hba]]
      exact ⟨fun h => Bool.noConfusion h,
        fun h => absurd (List.Lex.rel hba) h⟩

theorem strLe_iff_le (s t : String) : strLe s t = true ↔ s ≤ t := by
  rw [String.le_iff_toList_le]
  show charsLe s.data t.data = true ↔ s.data ≤ t.data
  rw [charsLe_iff, ← not_lt]
  exact Iff.rfl

/-! ### The category set -/

theorem mem_setAdd {l : List String} {x y : String} :
    y ∈ setAdd l x ↔ y ∈ l ∨ y = x := by
  unfold setAdd
  by_cases h : x ∈ l
  · rw [if_pos h]
    exact ⟨Or.inl, fun hy => hy.elim id (fun e => e ▸ h)⟩
  · rw [if_neg h]
    simp

theorem nodup_setAdd {l : List String} {x : String} (hl : l.Nodup) :
    (setAdd l x).Nodup := by
  unfold setAdd
  by_cases h : x ∈ l
  · rwa [if_pos h]
  · rw [if_neg h]
    refine List.nodup_append.mpr ⟨hl, List.nodup_singleton x, ?_⟩
    intro a ha hax
    rw [List.mem_singleton] at hax
    exact h (hax ▸ ha)

theorem mem_foldl_setAdd (cats : List String) :
    ∀ (acc : List String) (y : String),
      y ∈ cats.foldl setAdd acc ↔ y ∈ acc ∨ y ∈ cats := by
  induction cats with
  | nil => intro acc y; simp
  | cons c cs ih =>
    intro acc y
    rw [List.foldl_cons, ih, mem_setAdd]
    constructor
    · rintro ((h | rfl) | h)
      · exact Or.inl h
      · exact Or.inr (List.mem_cons_self _ _)
      · exact Or.inr (List.mem_cons_of_mem _ h)
    · rintro (h | h)
      · exact Or.inl (Or.inl h)
      · rcases List.mem_cons.mp h with rfl | h2
        · exact Or.inl (Or.inr rfl)
        · exact Or.inr h2

theorem nodup_foldl_setAdd (cats : List String) :
    ∀ acc : List String, acc.Nodup → (cats.foldl setAdd acc).Nodup := by
  induction cats with
  | nil => intro acc h; simpa using h
  | cons c cs ih => intro acc h; exact ih _ (nodup_setAdd h)

theorem mem_collectCategories (data : List LinkData) (y : String) :
    y ∈ collectCategories data ↔ ∃ r ∈ data, y ∈ r.categories := by
  suffices h : ∀ acc : List String,
      y ∈ data.foldl (fun acc item => item.categories.foldl setAdd acc) acc ↔
        y ∈ acc ∨ ∃ r ∈ data, y ∈ r.categories by
    simpa [collectCategories] using h []
  induction data with
  | nil => intro acc; simp
  | cons r rs ih =>
    intro acc
    rw [List.foldl_cons, ih, mem_foldl_setAdd]
    constructor
    · rintro ((h | h) | ⟨r2, hr2, hy⟩)
      · exact Or.inl h
      · exact Or.inr ⟨r, List.mem_cons_self _ _, h⟩
      · exact Or.inr ⟨r2, List.mem_cons_of_mem _ hr2, hy⟩
    · rintro (h | ⟨r2, hr2, hy⟩)
      · exact Or.inl (Or.inl h)
      · rcases List.mem_cons.mp hr2 with rfl | h2
        · exact Or.inl (Or.inr hy)
        · exact Or.inr ⟨r2, h2, hy⟩

theorem nodup_collectCategories (data : List LinkData) :
    (collectCategories data).Nodup := by
  suffices h : ∀ acc : List String, acc.Nodup →
      (data.foldl (fun acc item => item.categories.foldl setAdd acc) acc).Nodup by
    exact h [] List.nodup_nil
  induction data with
  | nil => intro acc h; simpa using h
  | cons r rs ih => intro acc h; exact ih _ (nodup_foldl_setAdd _ _ h)

theorem mem_allCategories (data : List LinkData) (y : String) :
    y ∈ allCategories data ↔ ∃ r ∈ data, y ∈ r.categories := by
  rw [allCategories, List.mem_insertionSort, mem_collectCategories]

theorem nodup_allCategories (data : List LinkData) :
    (allCategories data).Nodup :=
  ((List.perm_insertionSort _ _).nodup_iff).mpr (nodup_collectCategories data)

theorem sorted_allCategories (data : List LinkData) :
    (allCategories data).Sorted (· ≤ ·) := by
  haveI h1 : IsTotal String (fun s t => strLe s t = true) :=
    ⟨fun a b => by
      show strLe a b = true ∨ strLe b a = true
      rw [strLe_iff_le, strLe_iff_le]
      exact le_total a b⟩
  haveI h2 : IsTrans String (fun s t => strLe s t = true) :=
    ⟨fun a b c hab hbc => by
      show strLe a c = true
      rw [strLe_iff_le] at hab hbc ⊢
      exact le_trans hab hbc⟩
  have hs := List.sorted_insertionSort (fun s t : String => strLe s t = true)
    (collectCategories data)
  exact List.Pairwise.imp (fun h => (strLe_iff_le _ _).mp h) hs

/-! ### The filter predicates, Bool to Prop -/

theorem contains_true_iff {α : Type} [BEq α] [LawfulBEq α] (l : List α) (a : α) :
    l.contains a = true ↔ a ∈ l :=
  List.elem_iff

theorem matchesCategory_iff (selected : List String) (r : LinkData) :
    matchesCategory selected r = true ↔
      (selected = [] ∨ ∃ c ∈ r.categories, c ∈ selected) := by
  unfold matchesCategory
  simp only [Bool.or_eq_true, beq_iff_eq, List.length_eq_zero, List.any_eq_true,
    contains_true_iff]
  constructor
  · rintro (h | ⟨c, hc, hmem⟩)
    · exact Or.inl h
    · exact Or.inr ⟨c, hmem, hc⟩
  · rintro (h | ⟨c, hc, hmem⟩)
    · exact Or.inl h
    · exact Or.inr ⟨c, hmem, hc⟩

theorem matchesSearch_iff (query : String) (r : LinkData) :
    matchesSearch query r = true ↔
      (query = "" ∨
        (jsToLower query).data <:+: (jsToLower r.url).data ∨
        (∃ c ∈ r.categories, (jsToLower query).data <:+: (jsToLower c).data) ∨
        (∃ s, r.summary = some s ∧
          (jsToLower query).data <:+: (jsToLower s).data)) := by
  obtain ⟨u, cats, sm⟩ := r
  cases sm with
  | none =>
    simp [matchesSearch, jsIncludes_iff, or_assoc]
  | some s =>
    simp only [matchesSearch, Bool.or_eq_true, beq_iff_eq, List.any_eq_true,
      jsIncludes_iff, Bool.and_eq_true, bne_iff_ne, Option.some.injEq, or_assoc]
    constructor
    · rintro (h | h | ⟨c, hc, h⟩ | ⟨hne, h⟩)
      · exact Or.inl h
      · exact Or.inr (Or.inl h)
      · exact Or.inr (Or.inr (Or.inl ⟨c, hc, h⟩))
      · exact Or.inr (Or.inr (Or.inr ⟨s, rfl, h⟩))
    · rintro (h | h | ⟨c, hc, h⟩ | ⟨s2, hs2, h⟩)
      · exact Or.inl h
      · exact Or.inr (Or.inl h)
      · exact Or.inr (Or.inr (Or.inl ⟨c, hc, h⟩))
      · cases hs2
        by_cases hse : s = ""
        · subst hse
          have h0 : (jsToLower query).data = [] := List.infix_nil.mp h
          exact Or.inl ((jsToLower_eq_empty_iff query).mp h0)
        · exact Or.inr (Or.inr (Or.inr ⟨hse, h⟩))

theorem recordMatches_iff (selected : List String) (query : String)
    (r : LinkData) :
    (matchesCategory selected r && matchesSearch query r) = true ↔
      RecordMatches selected query r := by
  rw [Bool.and_eq_true, matchesCategory_iff, matchesSearch_iff]
  exact Iff.rfl

/-! ### The claims -/

/-- C1: `filteredData` keeps exactly the records matching both the
category predicate (selected empty, or a shared label) and the text
predicate (query empty, or a case-insensitive substring of the url, a
label, or the summary when present), as a subsequence of the input in the
original order; in particular the query "ISAR" matches a url containing
"isar". -/
theorem c1_filteredData_correct (data : List LinkData)
    (selected : List String) (query : String) :
    (filteredData data selected query).Sublist data ∧
      (∀ r : LinkData, r ∈ filteredData data selected query ↔
        r ∈ data ∧ RecordMatches selected query r) ∧
      demoIsar ∈ filteredData [demoIsar] [] "ISAR" := by
  refine ⟨List.filter_sublist _, fun r => ?_, ?_⟩
  · rw [filteredData, List.mem_filter, recordMatches_iff]
  · decide

/-- C8: filtering with no selected category and the empty query returns
the record list unchanged, in order. -/
theorem c8_filter_empty_id (data : List LinkData) :
    filteredData data [] "" = data := by
  rw [filteredData]
  apply List.filter_eq_self.mpr
  intro a _
  rw [Bool.and_eq_true, matchesCategory_iff, matchesSearch_iff]
  exact ⟨Or.inl rfl, Or.inl rfl⟩

/-- C6: `allCategories` is sorted in the lexicographic string order, has
no duplicates, and holds exactly the labels occurring in some record. -/
theorem c6_allCategories_sorted_nodup_complete (data : List LinkData) :
    (allCategories data).Sorted (· ≤ ·) ∧ (allCategories data).Nodup ∧
      ∀ c, c ∈ allCategories data ↔ ∃ r ∈ data, c ∈ r.categories :=
  ⟨sorted_allCategories data, nodup_allCategories data,
    fun c => mem_allCategories data c⟩

theorem countP_eq_occurrences (c : String) :
    ∀ data : List LinkData, (∀ r ∈ data, r.categories.Nodup) →
      data.countP (fun r => r.categories.contains c) = totalOccurrences data c
  | [] => fun _ => rfl
  | r :: rs => fun hnd => by
    have hr : r.categories.Nodup := hnd r (List.mem_cons_self _ _)
    have ih := countP_eq_occurrences c rs
      (fun x hx => hnd x (List.mem_cons_of_mem _ hx))
    rw [List.countP_cons]
    show _ = List.count c ((r :: rs).flatMap fun item => item.categories)
    rw [List.flatMap_cons, List.count_append]
    have hhead : (if (fun x : LinkData => x.categories.contains c) r = true
        then 1 else 0) = List.count c r.categories := by
      by_cases hm : c ∈ r.categories
      · rw [List.count_eq_one_of_mem hr hm,
          if_pos ((contains_true_iff _ _).mpr hm)]
      · rw [List.count_eq_zero.mpr hm,
          if_neg (fun hcon => hm ((contains_true_iff _ _).mp hcon))]
    rw [hhead, ih]
    exact Nat.add_comm _ _

/-- C5 as stated fails: on a record whose category sequence repeats a
label, `categoryStats` counts the record once while the total occurrence
count of the label is two. -/
theorem c5_counterexample :
    categoryStats statsDemo "A" = 1 ∧ totalOccurrences statsDemo "A" = 2 ∧
      categoryStats statsDemo "A" ≠ totalOccurrences statsDemo "A" := by
  decide

/-- C5 amended: `counts` maps a label to the number of records whose
category sequence contains it; this agrees with the total occurrence
count whenever no record repeats a label within its own sequence. -/
theorem c5_categoryStats_counts_records (data : List LinkData) (c : String) :
    categoryStats data c = data.countP (fun r => r.categories.contains c) ∧
      ((∀ r ∈ data, r.categories.Nodup) →
        categoryStats data c = totalOccurrences data c) := by
  have h1 : categoryStats data c =
      data.countP (fun r => r.categories.contains c) := by
    unfold categoryStats
    exact (List.countP_eq_length_filter _ _).symm
  exact ⟨h1, fun hnd => h1.trans (countP_eq_occurrences c data hnd)⟩

/-- C7 as stated fails: the sanitizer replaces only backslash, slash,
question mark, asterisk and square brackets, so a colon survives into the
sheet name. -/
theorem c7_counterexample :
    cleanSheetName "News: Launch" = "News: Launch" ∧
      ':' ∈ (cleanSheetName "News: Launch").data := by
  decide

/-- C7 amended: the generated sheet name is at most 31 characters long
and contains no backslash, slash, question mark, asterisk or square
bracket; the colon is not among the sanitized characters. -/
theorem c7_cleanSheetName_sanitizes (category : String) :
    (cleanSheetName category).length ≤ 31 ∧
      (cleanSheetName category).data.all
        (fun ch => !forbiddenSheetChars.contains ch) = true := by
  constructor
  · show ((category.data.map _).take 31).length ≤ 31
    rw [List.length_take]
    exact min_le_left _ _
  · rw [List.all_eq_true]
    intro ch hch
    have hch2 : ch ∈ category.data.map
        (fun c0 => if c0 ∈ forbiddenSheetChars then '_' else c0) :=
      List.take_subset _ _ hch
    rcases List.mem_map.mp hch2 with ⟨x, hx, rfl⟩
    by_cases hf : x ∈ forbiddenSheetChars
    · rw [if_pos hf]
      decide
    · rw [if_neg hf]
      cases hcon : forbiddenSheetChars.contains x with
      | false => rfl
      | true => exact absurd ((contains_true_iff _ _).mp hcon) hf

/-- C10: toggling a label keeps the selection duplicate-free, flips the
membership of the toggled label, and preserves the multiplicity of every
other label. -/
theorem c10_toggleCategory (selected : List String) (category : String)
    (h : selected.Nodup) :
    (toggleCategory selected category).Nodup ∧
      (category ∈ toggleCategory selected category ↔ category ∉ selected) ∧
      ∀ d, d ≠ category →
        (toggleCategory selected category).count d = selected.count d := by
  unfold toggleCategory
  by_cases hc : category ∈ selected
  · rw [if_pos ((contains_true_iff _ _).mpr hc)]
    refine ⟨h.filter _, ?_, ?_⟩
    · simp [List.mem_filter, hc]
    · intro d hd
      exact List.count_filter (bne_iff_ne.mpr hd)
  · rw [if_neg (fun hcon => hc ((contains_true_iff _ _).mp hcon))]
    refine ⟨?_, ?_, ?_⟩
    · refine List.nodup_append.mpr ⟨h, List.nodup_singleton _, ?_⟩
      intro a ha hax
      rw [List.mem_singleton] at hax
      exact hc (hax ▸ ha)
    · simp [List.mem_append, hc]
    · intro d hd
      rw [List.count_append]
      have h0 : List.count d [category] = 0 := by
        rw [List.count_singleton, if_neg]
        intro he
        exact hd (beq_iff_eq.mp he).symm
      rw [h0]
      rfl

/-- Witness for C10 at a concrete selection. -/
theorem c10_witness :
    (toggleCategory ["A", "B"] "B").Nodup ∧
      ("B" ∈ toggleCategory ["A", "B"] "B" ↔ "B" ∉ (["A", "B"] : List String)) ∧
      ∀ d, d ≠ "B" →
        (toggleCategory ["A", "B"] "B").count d =
          (["A", "B"] : List String).count d :=
  c10_toggleCategory ["A", "B"] "B" (by decide)

/-- C4: the export builds one sheet per distinct label, and for every
record and every label it carries, the sheet for that label contains the
row `[summary or empty, url, empty]` under the header row
`[Summary, URL, Human Analysis]`; a record with two labels hence appears
in both corresponding sheets. -/
theorem c4_exportSheets (data : List LinkData) (r : LinkData) (c : String)
    (hr : r ∈ data) (hc : c ∈ r.categories) :
    (exportSheets data).length = (allCategories data).length ∧
      (cleanSheetName c, sheetFor data c) ∈ exportSheets data ∧
      (sheetFor data c).head? = some ["Summary", "URL", "Human Analysis"] ∧
      [r.summary.getD "", r.url, ""] ∈ (sheetFor data c).tail := by
  refine ⟨List.length_map _ _, ?_, rfl, ?_⟩
  · exact List.mem_map.mpr ⟨c, (mem_allCategories data c).mpr ⟨r, hr, hc⟩, rfl⟩
  · show sheetRow r ∈
      (data.filter fun item => item.categories.contains c).map sheetRow
    exact List.mem_map.mpr
      ⟨r, List.mem_filter.mpr ⟨hr, (contains_true_iff _ _).mpr hc⟩, rfl⟩

/-- Witness for C4: `demoRec`, tagged Partnership and Fundraising,
appears in both corresponding sheets. -/
theorem c4_witness :
    ((exportSheets exportDemo).length = (allCategories exportDemo).length ∧
      (cleanSheetName "Partnership", sheetFor exportDemo "Partnership")
          ∈ exportSheets exportDemo ∧
      (sheetFor exportDemo "Partnership").head? =
          some ["Summary", "URL", "Human Analysis"] ∧
      [demoRec.summary.getD "", demoRec.url, ""]
          ∈ (sheetFor exportDemo "Partnership").tail) ∧
      [demoRec.summary.getD "", demoRec.url, ""]
          ∈ (sheetFor exportDemo "Fundraising").tail :=
  ⟨c4_exportSheets exportDemo demoRec "Partnership" (by decide) (by decide),
    (c4_exportSheets exportDemo demoRec "Fundraising"
      (by decide) (by decide)).2.2.2⟩

/-! ### The upload validator -/

theorem validateElem_obj (i : Nat) (fields : List (String × Json)) :
    validateElem i (Json.obj fields) =
      match getProp (Json.obj fields) "url" with
      | some (.str s) =>
        if s == "" then
          .error ("Item at index " ++ toString i ++
            " must have a valid \"url\" field")
        else
          match getProp (Json.obj fields) "categories" with
          | some (.arr cats) =>
            .ok { url := s, categories := cats.filterMap jsonString,
                  summary := none }
          | _ =>
            .error ("Item at index " ++ toString i ++
              " must have a \"categories\" array")
      | _ =>
        .error ("Item at index " ++ toString i ++
          " must have a valid \"url\" field") := rfl

theorem validateElem_ok_of_wf (i : Nat) {fields : List (String × Json)}
    {s : String} {xs : List Json}
    (hu : getProp (Json.obj fields) "url" = some (Json.str s)) (hs : s ≠ "")
    (hcat : getProp (Json.obj fields) "categories" = some (Json.arr xs)) :
    validateElem i (Json.obj fields) =
      Except.ok { url := s, categories := xs.filterMap jsonString,
                  summary := none } := by
  rw [validateElem_obj, hu]
  show (if s == "" then _ else _) = _
  rw [if_neg (fun hcon => hs (beq_iff_eq.mp hcon)), hcat]

theorem validateElem_err_of_not_wf (i : Nat) {j : Json}
    (h : ¬ wellFormedElem j) : ∃ e, validateElem i j = Except.error e := by
  cases j with
  | null => exact ⟨_, rfl⟩
  | bool b => cases b <;> exact ⟨_, rfl⟩
  | num n =>
    refine ⟨"Item at index " ++ toString i ++ " must be an object", ?_⟩
    unfold validateElem
    rw [if_pos (show (!truthy (some (Json.num n)) ||
      !jsTypeofObject (Json.num n)) = true from Bool.or_true _)]
  | str s =>
    refine ⟨"Item at index " ++ toString i ++ " must be an object", ?_⟩
    unfold validateElem
    rw [if_pos (show (!truthy (some (Json.str s)) ||
      !jsTypeofObject (Json.str s)) = true from Bool.or_true _)]
  | arr elems => exact ⟨_, rfl⟩
  | obj fields =>
    rw [validateElem_obj]
    cases hu : getProp (Json.obj fields) "url" with
    | none => exact ⟨_, rfl⟩
    | some v =>
      cases v with
      | str s =>
        by_cases hse : s = ""
        · subst hse
          exact ⟨_, rfl⟩
        · show ∃ e, (if s == "" then _ else _) = Except.error e
          rw [if_neg (fun hcon => hse (beq_iff_eq.mp hcon))]
          cases hcat : getProp (Json.obj fields) "categories" with
          | none => exact ⟨_, rfl⟩
          | some v2 =>
            cases v2 with
            | arr xs =>
              exact absurd ⟨⟨fields, rfl⟩, ⟨s, hu, hse⟩, ⟨xs, hcat⟩⟩ h
            | null => exact ⟨_, rfl⟩
            | bool b => exact ⟨_, rfl⟩
            | num n => exact ⟨_, rfl⟩
            | str s2 => exact ⟨_, rfl⟩
            | obj f2 => exact ⟨_, rfl⟩
      | null => exact ⟨_, rfl⟩
      | bool b => exact ⟨_, rfl⟩
      | num n => exact ⟨_, rfl⟩
      | arr elems => exact ⟨_, rfl⟩
      | obj f2 => exact ⟨_, rfl⟩

theorem validateItems_err_of_mem {xs : List Json} {x : Json} (hx : x ∈ xs)
    (hbad : ¬ wellFormedElem x) :
    ∀ i, ∃ e, validateItems i xs = Except.error e := by
  induction xs with
  | nil => cases hx
  | cons y ys ih =>
    intro i
    rcases List.mem_cons.mp hx with rfl | hmem
    · obtain ⟨e, he⟩ := validateElem_err_of_not_wf i hbad
      refine ⟨e, ?_⟩
      unfold validateItems
      rw [he]
    · cases hv : validateElem i y with
      | error e =>
        refine ⟨e, ?_⟩
        unfold validateItems
        rw [hv]
      | ok r =>
        obtain ⟨e, he⟩ := ih hmem (i + 1)
        refine ⟨e, ?_⟩
        unfold validateItems
        rw [hv, he]

/-- C3: an upload in which some element fails validation, or whose top
level is not an array, is rejected entirely: validation returns an error,
`onUpload` is never invoked, and the loaded dataset is unchanged. -/
theorem c3_invalid_upload_rejected (current : List LinkData) (j : Json)
    (h : (¬ ∃ xs, j = Json.arr xs) ∨
      ∃ xs, j = Json.arr xs ∧ ∃ x ∈ xs, ¬ wellFormedElem x) :
    (∃ e, validateJsonData j = Except.error e) ∧
      uploadStep current j = current := by
  have herr : ∃ e, validateJsonData j = Except.error e := by
    rcases h with hno | ⟨xs, rfl, x, hx, hbad⟩
    · cases j with
      | arr xs => exact absurd ⟨xs, rfl⟩ hno
      | null => exact ⟨_, rfl⟩
      | bool b => exact ⟨_, rfl⟩
      | num n => exact ⟨_, rfl⟩
      | str s => exact ⟨_, rfl⟩
      | obj fields => exact ⟨_, rfl⟩
    · exact validateItems_err_of_mem hx hbad 0
  obtain ⟨e, he⟩ := herr
  refine ⟨⟨e, he⟩, ?_⟩
  unfold uploadStep
  rw [he]

/-- Witness for C3: an upload whose second element lacks a url is
rejected and leaves the loaded dataset unchanged. -/
theorem c3_witness :
    (∃ e, validateJsonData badUpload = Except.error e) ∧
      uploadStep currentDemo badUpload = currentDemo :=
  c3_invalid_upload_rejected currentDemo badUpload
    (Or.inr ⟨_, rfl, badElem,
      List.mem_cons_of_mem _ (List.mem_cons_self _ _),
      by
        rintro ⟨-, ⟨s, hu, -⟩, -⟩
        rw [show getProp badElem "url" = none from rfl] at hu
        exact Option.noConfusion hu⟩)

theorem filterMap_jsonString_spec :
    ∀ xs : List Json, (xs.filterMap jsonString).map Json.str = xs.filter isJsonStr
  | [] => rfl
  | x :: rest => by
    cases x <;>
      simp [jsonString, isJsonStr, List.filterMap_cons, List.filter_cons,
        filterMap_jsonString_spec rest]

/-- C9: the record built for a valid element has as categories exactly
the string entries of the element's `categories` array, in their original
order; non-string entries are dropped and do not fail the upload. -/
theorem c9_nonstring_categories_dropped (i : Nat)
    (fields : List (String × Json)) (s : String) (xs : List Json)
    (hu : getProp (Json.obj fields) "url" = some (Json.str s)) (hs : s ≠ "")
    (hcat : getProp (Json.obj fields) "categories" = some (Json.arr xs)) :
    validateElem i (Json.obj fields) =
      Except.ok { url := s, categories := xs.filterMap jsonString,
                  summary := none } ∧
      (xs.filterMap jsonString).map Json.str = xs.filter isJsonStr :=
  ⟨validateElem_ok_of_wf i hu hs hcat, filterMap_jsonString_spec xs⟩

/-- Witness for C9 at an element whose categories mix strings with a
number and a null. -/
theorem c9_witness :
    validateElem 0 (Json.obj mixedFields) =
      Except.ok { url := "https://example.com/a", categories := ["A", "B"],
                  summary := none } ∧
      ((([Json.str "A", Json.num 3, Json.str "B",
            Json.null] : List Json).filterMap jsonString).map Json.str =
        ([Json.str "A", Json.num 3, Json.str "B",
            Json.null] : List Json).filter isJsonStr) :=
  c9_nonstring_categories_dropped 0 mixedFields "https://example.com/a"
    [Json.str "A", Json.num 3, Json.str "B", Json.null] rfl (by decide) rfl

/-- C2 as stated fails: the upload validator returns only `url` and
`categories`, so the record built for an element carrying a summary has
none. -/
theorem c2_counterexample :
    getProp summaryElem "summary" = some (Json.str "hello") ∧
      validateJsonData (Json.arr [summaryElem]) =
        Except.ok [{ url := "https://example.com/s", categories := ["A"],
                     summary := none }] :=
  ⟨rfl, rfl⟩

/-- C2 amended: the record the Loader builds for a valid uploaded element
carries its url and the string entries of its categories, but never its
summary: the upload validator does not copy the `summary` field. -/
theorem c2_summary_dropped (i : Nat) (fields : List (String × Json))
    (s : String) (xs : List Json) (v : Json)
    (hu : getProp (Json.obj fields) "url" = some (Json.str s)) (hs : s ≠ "")
    (hcat : getProp (Json.obj fields) "categories" = some (Json.arr xs))
    (_hsum : getProp (Json.obj fields) "summary" = some v) :
    ∃ r, validateElem i (Json.obj fields) = Except.ok r ∧
      r.url = s ∧ r.categories = xs.filterMap jsonString ∧ r.summary = none :=
  ⟨_, validateElem_ok_of_wf i hu hs hcat, rfl, rfl, rfl⟩

/-- Witness for C2 at the element carrying summary "hello". -/
theorem c2_witness :
    ∃ r, validateElem 0 summaryElem = Except.ok r ∧
      r.url = "https://example.com/s" ∧
      r.categories = ([Json.str "A"] : List Json).filterMap jsonString ∧
      r.summary = none :=
  c2_summary_dropped 0
    [("url", Json.str "https://example.com/s"),
     ("categories", Json.arr [Json.str "A"]),
     ("summary", Json.str "hello")]
    "https://example.com/s" [Json.str "A"] (Json.str "hello")
    rfl (by decide) rfl rfl

end NewSpace
